import Mathlib

/-!
Shallow embedding of `src/srvpool.c` (server pool of the cnats client).

Conventions of the embedding:
* `natsUrl` carries a `uid : Nat` field modelling the address of the
  heap-allocated `natsUrl` object; the C comparison `s->url == url`
  (pointer identity) is modelled as equality of `uid`s.  Every call to
  `_createSrv` allocates a fresh object, so a `nextId : Nat` counter is
  threaded through all allocating operations and incremented at each
  allocation.
* `pool->srvrs[0 .. pool->size)` is modelled as `srvrs : List natsSrv`;
  `pool->size` is `srvrs.length`.  `pool->cap` and the geometric
  reallocation only concern memory and are not part of the model;
  allocation (`NATS_NO_MEMORY` from calloc/realloc) is assumed to succeed.
* `pool->urls` is a `natsStrHash` used as a set of strings (every key is
  mapped to the dummy value `(void*)1`); it is modelled as the list of its
  keys.  `natsStrHash_Set` inserts the key or, when the key is already
  present, replaces its value — on the key set this is the identity.
* `rand()` after `srand(time)` is modelled by a parameter
  `rands : Nat → Nat` giving the value returned by the rand() call of
  loop iteration `i` of `_shufflePool`.
* C strings are modelled as `String`; `snprintf` into a `char[256]`
  buffer keeps the first 255 characters (bytes; the model assumes
  single-byte characters) and is modelled by `snprintfTrunc 256`.
-/

/-- Status codes of the library (the subset that `srvpool.c` can produce). -/
inductive natsStatus where
  | NATS_OK
  | NATS_NO_MEMORY
  | NATS_INVALID_URL
  deriving Repr, DecidableEq

open natsStatus

/-- A parsed URL (`natsUrl` from `url.h`): host, port, and the identity
`uid` of the allocated object (models the pointer value). -/
structure natsUrl where
  uid  : Nat
  host : String
  port : Int
  deriving Repr, DecidableEq

/-- One server of the pool (`natsSrv`): its URL and the reconnect counter
(`srv->reconnects`, incremented by the connection layer, read here). -/
structure natsSrv where
  url        : natsUrl
  reconnects : Int
  deriving Repr, DecidableEq

/-- The server pool (`natsSrvPool`): the ordered array of servers and the
key set of the `pool->urls` hash. -/
structure natsSrvPool where
  srvrs : List natsSrv
  urls  : List String
  deriving Repr, DecidableEq

/-- The options consumed by this file (`natsOptions`):
`opts->url`, `opts->servers`/`serversCount`, `opts->noRandomize`,
`opts->maxReconnect`. -/
structure natsOptions where
  url          : Option String
  servers      : List String
  noRandomize  : Bool
  maxReconnect : Int
  deriving Repr

/-- `natsStrHash_Get` on the key-set view: whether the key is present. -/
def natsStrHash_Get (m : List String) (k : String) : Bool :=
  decide (k ∈ m)

/-- `natsStrHash_Set` on the key-set view: insert the key; when the key is
already present only its value is replaced, so the key set is unchanged. -/
def natsStrHash_Set (m : List String) (k : String) : List String :=
  if k ∈ m then m else m ++ [k]

/-- Scan for the first occurrence of the three characters `://` and return
the rest of the list, or `none` when there is no such occurrence. -/
def findSchemeSplit : List Char → Option (List Char)
  | [] => none
  | ':' :: '/' :: '/' :: rest => some rest
  | _ :: rest => findSchemeSplit rest

/-- Modelled from the spec: drop the leading `scheme://` decoration, if
any, of an address ("Normalized address: the host:port form used as the
deduplication key, independent of scheme decoration"). -/
def stripScheme (s : String) : String :=
  match findSchemeSplit s.data with
  | some rest => String.mk rest
  | none => s

/-- Split a character list at its last `:`; returns the parts before and
after it, or `none` when the list contains no `:`. -/
def splitLastColon : List Char → Option (List Char × List Char)
  | [] => none
  | c :: rest =>
    match splitLastColon rest with
    | some (h, p) => some (c :: h, p)
    | none => if c = ':' then some ([], rest) else none

/-- Decimal digits to a number; `none` on a non-digit. -/
def digitsToNatAux : Nat → List Char → Option Nat
  | acc, [] => some acc
  | acc, c :: rest =>
    if c.isDigit then digitsToNatAux (acc * 10 + (c.toNat - 48)) rest
    else none

/-- Parse a non-empty all-digit port string. -/
def parsePort : List Char → Option Nat
  | [] => none
  | l => digitsToNatAux 0 l

/-- The default port of the protocol, used when an address has no
explicit port. -/
def NATS_DEFAULT_PORT : Nat := 4222

/-- Modelled from the spec: `natsUrl_Create` (`url.c`, not under `src/`).
"URL parsing/validation (consumed as an opaque endpoint descriptor with
host, port, and a stable identity)"; "parse address, fail with
`InvalidAddress` if malformed".  The scheme decoration is dropped, the
remainder is split into host and port at the last `:` (the port defaults
when absent); an empty host or a malformed port is `NATS_INVALID_URL`.
`uid` is the identity of the freshly allocated object. -/
def natsUrl_Create (uid : Nat) (urlStr : String) : Except natsStatus natsUrl :=
  let bare := stripScheme urlStr
  match splitLastColon bare.data with
  | none =>
    if bare.data = [] then Except.error NATS_INVALID_URL
    else Except.ok { uid := uid, host := bare, port := (NATS_DEFAULT_PORT : Int) }
  | some (h, p) =>
    if h = [] then Except.error NATS_INVALID_URL
    else
      match parsePort p with
      | some n => Except.ok { uid := uid, host := String.mk h, port := (n : Int) }
      | none => Except.error NATS_INVALID_URL

/-- `_createSrv`: allocate a `natsSrv` (its `reconnects` starts at `0`
from `NATS_CALLOC`) and parse the URL into it; on a parse error the
server is freed and the error returned. -/
def _createSrv (nextId : Nat) (url : String) : Except natsStatus (natsSrv × Nat) :=
  match natsUrl_Create nextId url with
  | Except.ok u => Except.ok ({ url := u, reconnects := 0 }, nextId + 1)
  | Except.error e => Except.error e

/-- `snprintf` into a buffer of `cap` bytes: the output is truncated to
the first `cap - 1` characters (one byte is reserved for the NUL). -/
def snprintfTrunc (cap : Nat) (s : String) : String :=
  String.mk (s.data.take (cap - 1))

/-- Decimal rendering of an `Int`, as `snprintf`'s `%d` produces. -/
def natDigitsAux : Nat → Nat → List Char → List Char
  | 0, _, acc => acc
  | fuel + 1, n, acc =>
    if n < 10 then Char.ofNat (48 + n) :: acc
    else natDigitsAux fuel (n / 10) (Char.ofNat (48 + n % 10) :: acc)

/-- Decimal rendering of an `Int` (`%d`). -/
def intToDecimalString (i : Int) : String :=
  match i with
  | Int.ofNat n => String.mk (natDigitsAux (n + 1) n [])
  | Int.negSucc m => String.mk ('-' :: natDigitsAux (m + 2) (m + 1) [])

/-- The bare `host:port` dedup key written by `_addURLToPool`:
`snprintf(bareURL, sizeof(bareURL), "%s:%d", srv->url->host, srv->url->port)`
with `char bareURL[256]`. -/
def bareURL (u : natsUrl) : String :=
  snprintfTrunc 256 (u.host ++ ":" ++ intToDecimalString u.port)

/-- `_addURLToPool`: create the server from the URL, register the bare
`host:port` key in the `pool->urls` hash, and append the server to the
array (growing the array is a memory-only concern, assumed to succeed). -/
def _addURLToPool (pool : natsSrvPool) (nextId : Nat) (sURL : String) :
    Except natsStatus (natsSrvPool × Nat) :=
  match _createSrv nextId sURL with
  | Except.error e => Except.error e
  | Except.ok (srv, nid) =>
    Except.ok
      ({ srvrs := pool.srvrs ++ [srv],
         urls := natsStrHash_Set pool.urls (bareURL srv.url) }, nid)

/-- The scan of `natsSrvPool_GetCurrentServer`: walk `pool->srvrs` from
index `k` comparing `s->url == url` (pointer identity, i.e. `uid`). -/
def findSrvAux (url : natsUrl) : List natsSrv → Nat → Option (natsSrv × Nat)
  | [], _ => none
  | s :: rest, k =>
    if s.url.uid = url.uid then some (s, k) else findSrvAux url rest (k + 1)

/-- `natsSrvPool_GetCurrentServer`: linear scan by pointer identity;
returns the match and its index, or `NULL` and index `-1`. -/
def natsSrvPool_GetCurrentServer (pool : natsSrvPool) (url : natsUrl) :
    Option natsSrv × Int :=
  match findSrvAux url pool.srvrs 0 with
  | some (s, i) => (some s, (i : Int))
  | none => (none, -1)

/-- `natsSrvPool_GetNextServer`: locate the current server by identity
(the call to `natsSrvPool_GetCurrentServer` is the scan `findSrvAux`);
if not found return `NULL` with the pool untouched.  Otherwise the shift
loop `for (j = i; j < pool->size - 1; j++) pool->srvrs[j] = pool->srvrs[j+1]`
moves every later entry one slot left; then either the current server is
written back at `pool->srvrs[size - 1]` (when `maxReconnect < 0` or
`s->reconnects < maxReconnect`) or it is freed and `pool->size--`.  On
the list view this removes index `i` and conditionally re-appends.  The
`pool->urls` hash is not touched.  Returns `NULL` when the pool became
empty, else the entry at index 0. -/
def natsSrvPool_GetNextServer (pool : natsSrvPool) (opts : natsOptions)
    (ncUrl : natsUrl) : Option natsSrv × natsSrvPool :=
  match findSrvAux ncUrl pool.srvrs 0 with
  | none => (none, pool)
  | some (s, i) =>
    let removed := pool.srvrs.eraseIdx i
    let srvrs' :=
      if opts.maxReconnect < 0 ∨ s.reconnects < opts.maxReconnect then
        removed ++ [s]
      else
        removed
    let pool' : natsSrvPool := { pool with srvrs := srvrs' }
    match srvrs'.head? with
    | none => (none, pool')
    | some hd => (some hd, pool')

/-- The swap of one iteration of `_shufflePool`:
`tmp = srvrs[i]; srvrs[i] = srvrs[j]; srvrs[j] = tmp`. -/
def swapIdx (l : List natsSrv) (i j : Nat) : List natsSrv :=
  match l.get? i, l.get? j with
  | some a, some b => (l.set i b).set j a
  | _, _ => l

/-- `_shufflePool`: no-op on pools of size ≤ 1 (in particular no reseed);
otherwise the Fisher–Yates loop `for i: j = rand() % (i+1); swap i j`,
with `rands i` the value of the rand() call of iteration `i`. -/
def _shufflePool (rands : Nat → Nat) (pool : natsSrvPool) : natsSrvPool :=
  if pool.srvrs.length ≤ 1 then pool
  else
    { pool with
      srvrs :=
        (List.range pool.srvrs.length).foldl
          (fun acc i => swapIdx acc i (rands i % (i + 1))) pool.srvrs }

/-- The URL admitted for a discovered address by `natsSrvPool_addNewURLs`:
`snprintf(url, sizeof(url), "nats://%s", urls[i])` with `char url[256]`. -/
def mergeURL (u : String) : String :=
  snprintfTrunc 256 ("nats://" ++ u)

/-- The loop of `natsSrvPool_addNewURLs`:
`for (i=0; (s == NATS_OK) && (i < urlCount); i++)` — an address whose raw
string is a key of `pool->urls` is skipped, otherwise `nats://` is
prepended and the result admitted; the loop stops at the first error.
Returns the status, the pool, the allocation counter and the `updated`
flag. -/
def addNewURLsLoop (pool : natsSrvPool) (nextId : Nat) :
    List String → natsStatus × natsSrvPool × Nat × Bool
  | [] => (NATS_OK, pool, nextId, false)
  | u :: rest =>
    if natsStrHash_Get pool.urls u then
      addNewURLsLoop pool nextId rest
    else
      match _addURLToPool pool nextId (mergeURL u) with
      | Except.error e => (e, pool, nextId, false)
      | Except.ok (p, nid) =>
        let r := addNewURLsLoop p nid rest
        (r.1, r.2.1, r.2.2.1, true)

/-- `natsSrvPool_addNewURLs`: run the merge loop, then
`if (updated && doShuffle) _shufflePool(pool)` — note that this runs even
when the loop stopped with an error, provided an earlier address was
admitted. -/
def natsSrvPool_addNewURLs (pool : natsSrvPool) (nextId : Nat)
    (urls : List String) (doShuffle : Bool) (rands : Nat → Nat) :
    natsStatus × natsSrvPool × Nat :=
  let r := addNewURLsLoop pool nextId urls
  (r.1, if r.2.2.2 && doShuffle then _shufflePool rands r.2.1 else r.2.1, r.2.2.1)

/-- Modelled from the spec: the built-in default address
(`NATS_DEFAULT_URL` from `natsp.h`, not under `src/`; "a fallback default
address is injected if configuration yields none"). -/
def NATS_DEFAULT_URL : String := "nats://localhost:4222"

/-- The `for` loop of `natsSrvPool_Create` over `opts->servers`. -/
def addListToPool (pool : natsSrvPool) (nextId : Nat) :
    List String → Except natsStatus (natsSrvPool × Nat)
  | [] => Except.ok (pool, nextId)
  | u :: rest =>
    match _addURLToPool pool nextId u with
    | Except.error e => Except.error e
    | Except.ok (p, nid) => addListToPool p nid rest

/-- `natsSrvPool_Create`: start from the empty pool (the initial capacity
and the hash sizing are memory-only), admit `opts->url` first if present,
then each of `opts->servers` in order, stopping at the first error; on
success shuffle unless `opts->noRandomize`, then admit the default URL if
the pool is still empty.  On error the partially built pool is destroyed
and only the error returned. -/
def natsSrvPool_Create (opts : natsOptions) (rands : Nat → Nat) (nextId : Nat) :
    Except natsStatus (natsSrvPool × Nat) :=
  let pool0 : natsSrvPool := { srvrs := [], urls := [] }
  let afterUrl :=
    match opts.url with
    | none => Except.ok (pool0, nextId)
    | some u => _addURLToPool pool0 nextId u
  match afterUrl with
  | Except.error e => Except.error e
  | Except.ok (p1, n1) =>
    match addListToPool p1 n1 opts.servers with
    | Except.error e => Except.error e
    | Except.ok (p2, n2) =>
      let p3 := if opts.noRandomize then p2 else _shufflePool rands p2
      if p3.srvrs.length = 0 then
        _addURLToPool p3 n2 NATS_DEFAULT_URL
      else
        Except.ok (p3, n2)

/-! ### Helper lemmas about the identity scan -/

theorem findSrvAux_none (url : natsUrl) :
    ∀ (l : List natsSrv) (k : Nat), (∀ s ∈ l, s.url.uid ≠ url.uid) →
      findSrvAux url l k = none
  | [], _, _ => rfl
  | s :: rest, k, h => by
    have hs : s.url.uid ≠ url.uid := h s (List.mem_cons_self s rest)
    simp only [findSrvAux, if_neg hs]
    exact findSrvAux_none url rest (k + 1) (fun x hx => h x (List.mem_cons_of_mem _ hx))

theorem findSrvAux_some (url : natsUrl) :
    ∀ (l : List natsSrv) (k : Nat) (s : natsSrv) (i : Nat),
      findSrvAux url l k = some (s, i) →
      k ≤ i ∧ i - k < l.length ∧ l.get? (i - k) = some s ∧ s.url.uid = url.uid
  | [], _, _, _, h => by simp [findSrvAux] at h
  | a :: rest, k, s, i, h => by
    by_cases ha : a.url.uid = url.uid
    · simp only [findSrvAux, if_pos ha] at h
      obtain ⟨rfl, rfl⟩ : a = s ∧ k = i := by
        have h' := Option.some.inj h
        exact ⟨congrArg Prod.fst h', congrArg Prod.snd h'⟩
      refine ⟨Nat.le_refl _, ?_, ?_, ha⟩
      · simp
      · simp
    · simp only [findSrvAux, if_neg ha] at h
      obtain ⟨h1, h2, h3, h4⟩ := findSrvAux_some url rest (k + 1) s i h
      refine ⟨by omega, by simp; omega, ?_, h4⟩
      have : i - k = (i - (k + 1)) + 1 := by omega
      rw [this]
      simpa using h3

theorem findSrvAux_append (url : natsUrl) :
    ∀ (pre rest : List natsSrv) (k : Nat), (∀ s ∈ pre, s.url.uid ≠ url.uid) →
      findSrvAux url (pre ++ rest) k = findSrvAux url rest (k + pre.length)
  | [], rest, k, _ => by simp
  | a :: pre, rest, k, h => by
    have ha : a.url.uid ≠ url.uid := h a (List.mem_cons_self a pre)
    have step : findSrvAux url ((a :: pre) ++ rest) k
        = findSrvAux url (pre ++ rest) (k + 1) := by
      simp only [List.cons_append, findSrvAux, if_neg ha]
      rfl
    have harith : k + 1 + pre.length = k + (a :: pre).length := by
      simp only [List.length_cons]
      omega
    rw [step, findSrvAux_append url pre rest (k + 1)
      (fun x hx => h x (List.mem_cons_of_mem _ hx)), harith]

/-! ### Helper lemmas about swapping and permutations -/

theorem set_self_of_get {α : Type} : ∀ (l : List α) (i : Nat) (a : α),
    l.get? i = some a → l.set i a = l
  | [], _, _, h => by simp at h
  | x :: t, 0, a, h => by
    have : x = a := by simpa using h
    simp [this]
  | x :: t, i + 1, a, h => by
    have h' : t.get? i = some a := by simpa using h
    simp [set_self_of_get t i a h']

theorem headSwap_perm {α : Type} : ∀ (t : List α) (k : Nat) (b x : α),
    t.get? k = some b → List.Perm (b :: t.set k x) (x :: t)
  | [], _, _, _, h => by simp at h
  | y :: s, 0, b, x, h => by
    have : y = b := by simpa using h
    subst this
    simpa using List.Perm.swap x y s
  | y :: s, k + 1, b, x, h => by
    have h' : s.get? k = some b := by simpa using h
    have ih := headSwap_perm s k b x h'
    exact (List.Perm.swap y b (s.set k x)).trans
      ((List.Perm.cons y ih).trans (List.Perm.swap x y s))

theorem set_set_perm {α : Type} : ∀ (l : List α) (i j : Nat) (a b : α),
    l.get? i = some a → l.get? j = some b →
      List.Perm ((l.set i b).set j a) l
  | [], _, _, _, _, hi, _ => by simp at hi
  | x :: t, 0, 0, a, b, hi, hj => by
    have ha : x = a := by simpa using hi
    have hb : x = b := by simpa using hj
    subst ha; subst hb
    simp
  | x :: t, 0, j + 1, a, b, hi, hj => by
    have ha : x = a := by simpa using hi
    have hj' : t.get? j = some b := by simpa using hj
    subst ha
    simpa using headSwap_perm t j b x hj'
  | x :: t, i + 1, 0, a, b, hi, hj => by
    have hb : x = b := by simpa using hj
    have hi' : t.get? i = some a := by simpa using hi
    subst hb
    simpa using headSwap_perm t i a x hi'
  | x :: t, i + 1, j + 1, a, b, hi, hj => by
    have hi' : t.get? i = some a := by simpa using hi
    have hj' : t.get? j = some b := by simpa using hj
    simpa using List.Perm.cons x (set_set_perm t i j a b hi' hj')

theorem swapIdx_perm (l : List natsSrv) (i j : Nat) :
    List.Perm (swapIdx l i j) l := by
  unfold swapIdx
  cases hi : l.get? i with
  | none => exact List.Perm.refl l
  | some a =>
    cases hj : l.get? j with
    | none => exact List.Perm.refl l
    | some b => exact set_set_perm l i j a b hi hj

theorem shuffle_foldl_perm (f : Nat → Nat) :
    ∀ (idxs : List Nat) (l : List natsSrv),
      List.Perm (idxs.foldl (fun acc i => swapIdx acc i (f i)) l) l
  | [], l => List.Perm.refl l
  | i :: rest, l =>
    (shuffle_foldl_perm f rest (swapIdx l i (f i))).trans (swapIdx_perm l i (f i))

theorem shufflePool_perm (rands : Nat → Nat) (pool : natsSrvPool) :
    List.Perm (_shufflePool rands pool).srvrs pool.srvrs := by
  unfold _shufflePool
  split
  · exact List.Perm.refl _
  · exact shuffle_foldl_perm _ _ _

theorem shufflePool_urls (rands : Nat → Nat) (pool : natsSrvPool) :
    (_shufflePool rands pool).urls = pool.urls := by
  unfold _shufflePool
  split <;> rfl

theorem shufflePool_length (rands : Nat → Nat) (pool : natsSrvPool) :
    (_shufflePool rands pool).srvrs.length = pool.srvrs.length :=
  (shufflePool_perm rands pool).length_eq

theorem eraseIdx_append_perm {α : Type} (l : List α) (i : Nat) (s : α)
    (h : l.get? i = some s) : List.Perm (l.eraseIdx i ++ [s]) l := by
  have h' : l[i]? = some s := by simpa [← List.get?_eq_getElem?] using h
  obtain ⟨hlt, hval⟩ := List.getElem?_eq_some_iff.mp h'
  have hdecomp : l = l.take i ++ s :: l.drop (i + 1) := by
    conv_lhs => rw [← List.take_append_drop i l]
    rw [List.drop_eq_getElem_cons hlt, hval]
  rw [List.eraseIdx_eq_take_drop_succ, List.append_assoc]
  conv_rhs => rw [hdecomp]
  exact List.Perm.append_left _ (List.perm_append_singleton _ _)

/-- Shape of `natsSrvPool_GetNextServer` when the scan locates the
current server at index `i`. -/
theorem getNextServer_eq (pool : natsSrvPool) (opts : natsOptions) (ncUrl : natsUrl)
    (s : natsSrv) (i : Nat)
    (h : findSrvAux ncUrl pool.srvrs 0 = some (s, i)) :
    natsSrvPool_GetNextServer pool opts ncUrl =
      ((pool.srvrs.eraseIdx i ++
          (if opts.maxReconnect < 0 ∨ s.reconnects < opts.maxReconnect
           then [s] else [])).head?,
       { pool with
         srvrs := pool.srvrs.eraseIdx i ++
          (if opts.maxReconnect < 0 ∨ s.reconnects < opts.maxReconnect
           then [s] else []) }) := by
  unfold natsSrvPool_GetNextServer
  rw [h]
  by_cases hk : opts.maxReconnect < 0 ∨ s.reconnects < opts.maxReconnect
  · simp only [if_pos hk]
    cases hh : (pool.srvrs.eraseIdx i ++ [s]).head? <;> simp [hh]
  · simp only [if_neg hk, List.append_nil]
    cases hh : (pool.srvrs.eraseIdx i).head? <;> simp [hh]

/-! ### Claim theorems -/

/-- C1: for every pool and every endpoint reference present in the pool
(located by the identity scan at index `i`), `natsSrvPool_GetNextServer`
removes the located endpoint from its slot by shifting all following
entries one position left (the result is `take i ++ drop (i+1)`, so the
relative order of the remaining entries is preserved), then re-appends it
at the tail exactly when `maxReconnect` is negative or its `reconnects`
counter is strictly below `maxReconnect` (keeping the size), and
otherwise drops it, decrementing the size by one; the returned server is
`head?` of the resulting sequence — `none` when it is empty, otherwise
the entry now at index 0. -/
theorem C1_rotate_removes_shifts_reappends_or_evicts
    (pool : natsSrvPool) (opts : natsOptions) (ncUrl : natsUrl)
    (s : natsSrv) (i : Nat)
    (h : findSrvAux ncUrl pool.srvrs 0 = some (s, i)) :
    natsSrvPool_GetNextServer pool opts ncUrl =
      ((pool.srvrs.eraseIdx i ++
          (if opts.maxReconnect < 0 ∨ s.reconnects < opts.maxReconnect
           then [s] else [])).head?,
       { pool with
         srvrs := pool.srvrs.eraseIdx i ++
          (if opts.maxReconnect < 0 ∨ s.reconnects < opts.maxReconnect
           then [s] else []) }) ∧
    pool.srvrs.eraseIdx i = pool.srvrs.take i ++ pool.srvrs.drop (i + 1) ∧
    i < pool.srvrs.length ∧ pool.srvrs.get? i = some s ∧
    ((opts.maxReconnect < 0 ∨ s.reconnects < opts.maxReconnect) →
      (natsSrvPool_GetNextServer pool opts ncUrl).2.srvrs.length
        = pool.srvrs.length) ∧
    (¬ (opts.maxReconnect < 0 ∨ s.reconnects < opts.maxReconnect) →
      (natsSrvPool_GetNextServer pool opts ncUrl).2.srvrs.length + 1
        = pool.srvrs.length) := by
  obtain ⟨-, hlen, hget, -⟩ := findSrvAux_some ncUrl pool.srvrs 0 s i h
  simp only [Nat.sub_zero] at hlen hget
  have hmain := getNextServer_eq pool opts ncUrl s i h
  refine ⟨hmain, List.eraseIdx_eq_take_drop_succ .., hlen, hget, ?_, ?_⟩
  · intro hk
    rw [hmain]
    simp [if_pos hk, List.length_eraseIdx_of_lt hlen]
    omega
  · intro hk
    rw [hmain]
    simp [if_neg hk, List.length_eraseIdx_of_lt hlen]
    omega

theorem C1_witness :
    natsSrvPool_GetNextServer
        ⟨[⟨⟨0, "a", 4222⟩, 0⟩, ⟨⟨1, "b", 4222⟩, 0⟩], ["a:4222", "b:4222"]⟩
        ⟨none, [], true, -1⟩ ⟨0, "a", 4222⟩ =
      (some ⟨⟨1, "b", 4222⟩, 0⟩,
       ⟨[⟨⟨1, "b", 4222⟩, 0⟩, ⟨⟨0, "a", 4222⟩, 0⟩], ["a:4222", "b:4222"]⟩) := by
  have hc := C1_rotate_removes_shifts_reappends_or_evicts
    ⟨[⟨⟨0, "a", 4222⟩, 0⟩, ⟨⟨1, "b", 4222⟩, 0⟩], ["a:4222", "b:4222"]⟩
    ⟨none, [], true, -1⟩ ⟨0, "a", 4222⟩ ⟨⟨0, "a", 4222⟩, 0⟩ 0 rfl
  rw [hc.1]
  rfl

/-- C8: `natsSrvPool_GetCurrentServer` compares by object identity (the
`uid` modelling the `natsUrl` pointer), never by address text: when no
entry has the reference's identity it returns `NULL` and index `-1`, and
when the pool is `pre ++ e :: post` with no entry of `pre` carrying `e`'s
identity — in particular when `pre` holds endpoints whose addresses are
textually identical to `e`'s but are distinct objects — looking up by
`e`'s reference returns `e` itself and its index `pre.length`, never the
textual twin. -/
theorem C8_lookup_by_identity_not_text :
    (∀ (pool : natsSrvPool) (url : natsUrl),
      (∀ s ∈ pool.srvrs, s.url.uid ≠ url.uid) →
      natsSrvPool_GetCurrentServer pool url = (none, -1)) ∧
    (∀ (pool : natsSrvPool) (pre post : List natsSrv) (e : natsSrv),
      pool.srvrs = pre ++ e :: post →
      (∀ s ∈ pre, s.url.uid ≠ e.url.uid) →
      natsSrvPool_GetCurrentServer pool e.url = (some e, (pre.length : Int))) := by
  constructor
  · intro pool url h
    unfold natsSrvPool_GetCurrentServer
    rw [findSrvAux_none url pool.srvrs 0 h]
  · intro pool pre post e hsrvrs hpre
    unfold natsSrvPool_GetCurrentServer
    rw [hsrvrs, findSrvAux_append e.url pre (e :: post) 0 hpre]
    simp [findSrvAux]

theorem C8_witness :
    natsSrvPool_GetCurrentServer
        ⟨[⟨⟨0, "a", 4222⟩, 0⟩, ⟨⟨1, "a", 4222⟩, 0⟩], ["a:4222"]⟩ ⟨1, "a", 4222⟩
      = (some ⟨⟨1, "a", 4222⟩, 0⟩, 1) ∧
    natsSrvPool_GetCurrentServer
        ⟨[⟨⟨0, "a", 4222⟩, 0⟩, ⟨⟨1, "a", 4222⟩, 0⟩], ["a:4222"]⟩ ⟨5, "a", 4222⟩
      = (none, -1) := by
  constructor
  · have hc := C8_lookup_by_identity_not_text.2
      ⟨[⟨⟨0, "a", 4222⟩, 0⟩, ⟨⟨1, "a", 4222⟩, 0⟩], ["a:4222"]⟩
      [⟨⟨0, "a", 4222⟩, 0⟩] [] ⟨⟨1, "a", 4222⟩, 0⟩ rfl (by decide)
    simpa using hc
  · exact C8_lookup_by_identity_not_text.1
      ⟨[⟨⟨0, "a", 4222⟩, 0⟩, ⟨⟨1, "a", 4222⟩, 0⟩], ["a:4222"]⟩
      ⟨5, "a", 4222⟩ (by decide)

/-- C9: calling `natsSrvPool_GetNextServer` with a reference whose
identity matches no entry of the pool returns `NULL` and leaves the pool
completely unchanged (same sequence, same dedup key set); this is a
defined `NULL` return of the function, not an error status. -/
theorem C9_rotate_unknown_reference_is_nil_noop
    (pool : natsSrvPool) (opts : natsOptions) (url : natsUrl)
    (h : ∀ s ∈ pool.srvrs, s.url.uid ≠ url.uid) :
    natsSrvPool_GetNextServer pool opts url = (none, pool) := by
  unfold natsSrvPool_GetNextServer
  rw [findSrvAux_none url pool.srvrs 0 h]

theorem C9_witness :
    natsSrvPool_GetNextServer
        ⟨[⟨⟨0, "a", 4222⟩, 0⟩, ⟨⟨1, "b", 4222⟩, 0⟩], ["a:4222", "b:4222"]⟩
        ⟨none, [], true, -1⟩ ⟨7, "a", 4222⟩ =
      (none, ⟨[⟨⟨0, "a", 4222⟩, 0⟩, ⟨⟨1, "b", 4222⟩, 0⟩], ["a:4222", "b:4222"]⟩) :=
  C9_rotate_unknown_reference_is_nil_noop
    ⟨[⟨⟨0, "a", 4222⟩, 0⟩, ⟨⟨1, "b", 4222⟩, 0⟩], ["a:4222", "b:4222"]⟩
    ⟨none, [], true, -1⟩ ⟨7, "a", 4222⟩ (by decide)

/-- C7: `_shufflePool` is a pure reordering: the servers after the
shuffle are a permutation of the servers before it (same multiset by
endpoint identity, and — mapping each entry to its `host:port` address
key — the same multiset by address), the pool size is unchanged, and the
dedup key set is untouched. -/
theorem C7_shuffle_is_pure_reordering (rands : Nat → Nat) (pool : natsSrvPool) :
    List.Perm (_shufflePool rands pool).srvrs pool.srvrs ∧
    List.Perm ((_shufflePool rands pool).srvrs.map (fun s => bareURL s.url))
      (pool.srvrs.map (fun s => bareURL s.url)) ∧
    (_shufflePool rands pool).srvrs.length = pool.srvrs.length ∧
    (_shufflePool rands pool).urls = pool.urls :=
  ⟨shufflePool_perm rands pool, (shufflePool_perm rands pool).map _,
   shufflePool_length rands pool, shufflePool_urls rands pool⟩

/-- The scenario of the rotation-fairness property: call
`natsSrvPool_GetNextServer` passing the reference of the endpoint
currently at index 0 of the pool. -/
def rotateFromHead (pool : natsSrvPool) (opts : natsOptions) :
    Option natsSrv × natsSrvPool :=
  match pool.srvrs with
  | [] => (none, pool)
  | s :: _ => natsSrvPool_GetNextServer pool opts s.url

/-- Iterate `rotateFromHead`, collecting the returned endpoints. -/
def rotateN : Nat → natsSrvPool → natsOptions → List (Option natsSrv) × natsSrvPool
  | 0, pool, _ => ([], pool)
  | k + 1, pool, opts =>
    let r := rotateFromHead pool opts
    let rest := rotateN k r.2 opts
    (r.1 :: rest.1, rest.2)

theorem rotateFromHead_cons (opts : natsOptions) (hm : opts.maxReconnect < 0)
    (s : natsSrv) (t : List natsSrv) (u : List String) :
    rotateFromHead ⟨s :: t, u⟩ opts = ((t ++ [s]).head?, ⟨t ++ [s], u⟩) := by
  show natsSrvPool_GetNextServer ⟨s :: t, u⟩ opts s.url = _
  unfold natsSrvPool_GetNextServer
  simp only [findSrvAux, if_pos rfl]
  simp only [List.eraseIdx_cons_zero, if_pos (Or.inl hm)]
  cases hh : (t ++ [s]).head? <;> simp [hh]

theorem rotateN_unlimited (opts : natsOptions) (hm : opts.maxReconnect < 0)
    (u : List String) :
    ∀ (k : Nat) (l : List natsSrv), l ≠ [] →
      rotateN k ⟨l, u⟩ opts =
        ((List.range k).map (fun j => (l.rotate (j + 1)).head?), ⟨l.rotate k, u⟩)
  | 0, l, _ => by simp [rotateN, List.rotate_zero]
  | k + 1, l, hne => by
    obtain ⟨s, t, rfl⟩ : ∃ s t, l = s :: t := by
      cases l with
      | nil => exact absurd rfl hne
      | cons s t => exact ⟨s, t, rfl⟩
    have hne' : t ++ [s] ≠ [] := by simp
    show (let r := rotateFromHead ⟨s :: t, u⟩ opts
          let rest := rotateN k r.2 opts
          (r.1 :: rest.1, rest.2)) = _
    rw [rotateFromHead_cons opts hm s t u]
    simp only
    rw [rotateN_unlimited opts hm u k (t ++ [s]) hne']
    refine Prod.ext ?_ ?_
    · show (t ++ [s]).head? ::
        (List.range k).map (fun j => ((t ++ [s]).rotate (j + 1)).head?) = _
      rw [List.range_succ_eq_map, List.map_cons, List.map_map]
      refine congrArg₂ _ ?_ ?_
      · simp [List.rotate_cons_succ, List.rotate_zero]
      · refine List.map_congr_left (fun j _ => ?_)
        simp only [Function.comp_apply, List.rotate_cons_succ]
    · show (⟨(t ++ [s]).rotate k, u⟩ : natsSrvPool) = _
      rw [← List.rotate_cons_succ]

theorem range_map_getElem {α : Type} : ∀ (l : List α),
    (List.range l.length).map (fun j => l[j]?) = l.map some
  | [] => rfl
  | a :: t => by
    rw [List.length_cons, List.range_succ_eq_map, List.map_cons, List.map_map]
    simp only [Function.comp_def, List.getElem?_cons_zero, List.getElem?_cons_succ,
      List.map_cons]
    rw [range_map_getElem t]

theorem range_map_rotate_head (l : List natsSrv) :
    (List.range l.length).map (fun j => (l.rotate j).head?) = l.map some := by
  rw [← range_map_getElem l]
  refine List.map_congr_left (fun j hj => ?_)
  exact List.head?_rotate (List.mem_range.mp hj)

/-- C4: for a pool of N endpoints under an unlimited retry budget
(negative `maxReconnect`), calling `natsSrvPool_GetNextServer` N times,
each time passing the endpoint currently at index 0, returns the N
endpoints of the original pool each exactly once (the returned list is
the rotation by one of the original sequence, a permutation of it), the
pool after the N calls is exactly the original pool again, and therefore
the Nth call (the one after calls 0 .. N-1) returns the same endpoint as
the 0th call did. -/
theorem C4_rotation_fairness_unlimited (pool : natsSrvPool) (opts : natsOptions)
    (hm : opts.maxReconnect < 0) :
    (rotateN pool.srvrs.length pool opts).1 = (pool.srvrs.rotate 1).map some ∧
    List.Perm (rotateN pool.srvrs.length pool opts).1 (pool.srvrs.map some) ∧
    (rotateN pool.srvrs.length pool opts).2 = pool ∧
    (rotateFromHead (rotateN pool.srvrs.length pool opts).2 opts).1
      = (rotateFromHead pool opts).1 := by
  obtain ⟨l, u⟩ := pool
  cases hl : l with
  | nil => subst hl; exact ⟨rfl, List.Perm.refl _, rfl, rfl⟩
  | cons s t =>
    subst hl
    have hne : s :: t ≠ [] := by simp
    have hmain := rotateN_unlimited opts hm u (s :: t).length (s :: t) hne
    have hres : (rotateN (s :: t).length ⟨s :: t, u⟩ opts).1
        = ((s :: t).rotate 1).map some := by
      rw [hmain]
      have hlen : (s :: t).length = ((s :: t).rotate 1).length := by
        simp [List.length_rotate]
      rw [hlen]
      rw [← range_map_rotate_head ((s :: t).rotate 1)]
      refine List.map_congr_left (fun j _ => ?_)
      rw [List.rotate_rotate, Nat.add_comm 1 j]
    have hpool : (rotateN (s :: t).length ⟨s :: t, u⟩ opts).2 = ⟨s :: t, u⟩ := by
      rw [hmain]
      show ({ srvrs := (s :: t).rotate (s :: t).length, urls := u } : natsSrvPool) = _
      rw [List.rotate_length]
    refine ⟨hres, ?_, hpool, by rw [hpool]⟩
    rw [hres]
    exact (List.rotate_perm (s :: t) 1).map some

theorem C4_witness :
    (rotateN
        (⟨[⟨⟨0, "a", 4222⟩, 0⟩, ⟨⟨1, "b", 4222⟩, 0⟩, ⟨⟨2, "c", 4222⟩, 0⟩],
           ["a:4222", "b:4222", "c:4222"]⟩ : natsSrvPool).srvrs.length
        ⟨[⟨⟨0, "a", 4222⟩, 0⟩, ⟨⟨1, "b", 4222⟩, 0⟩, ⟨⟨2, "c", 4222⟩, 0⟩],
          ["a:4222", "b:4222", "c:4222"]⟩ ⟨none, [], true, -1⟩).1
      = [some ⟨⟨1, "b", 4222⟩, 0⟩, some ⟨⟨2, "c", 4222⟩, 0⟩, some ⟨⟨0, "a", 4222⟩, 0⟩] ∧
    (rotateN
        (⟨[⟨⟨0, "a", 4222⟩, 0⟩, ⟨⟨1, "b", 4222⟩, 0⟩, ⟨⟨2, "c", 4222⟩, 0⟩],
           ["a:4222", "b:4222", "c:4222"]⟩ : natsSrvPool).srvrs.length
        ⟨[⟨⟨0, "a", 4222⟩, 0⟩, ⟨⟨1, "b", 4222⟩, 0⟩, ⟨⟨2, "c", 4222⟩, 0⟩],
          ["a:4222", "b:4222", "c:4222"]⟩ ⟨none, [], true, -1⟩).2
      = ⟨[⟨⟨0, "a", 4222⟩, 0⟩, ⟨⟨1, "b", 4222⟩, 0⟩, ⟨⟨2, "c", 4222⟩, 0⟩],
          ["a:4222", "b:4222", "c:4222"]⟩ := by
  have hc := C4_rotation_fairness_unlimited
    ⟨[⟨⟨0, "a", 4222⟩, 0⟩, ⟨⟨1, "b", 4222⟩, 0⟩, ⟨⟨2, "c", 4222⟩, 0⟩],
      ["a:4222", "b:4222", "c:4222"]⟩ ⟨none, [], true, -1⟩ (by decide)
  exact ⟨by rw [hc.1]; decide, hc.2.2.1⟩

/-! ### Helper lemmas about admission and construction -/

theorem _addURLToPool_ok (pool : natsSrvPool) (nid : Nat) (sURL : String)
    (p' : natsSrvPool) (nid' : Nat)
    (h : _addURLToPool pool nid sURL = Except.ok (p', nid')) :
    ∃ srv, p'.srvrs = pool.srvrs ++ [srv] ∧
      p'.urls = natsStrHash_Set pool.urls (bareURL srv.url) := by
  unfold _addURLToPool at h
  split at h
  · exact absurd h (by simp)
  · rename_i srv nid2 heq
    have h1 := congrArg Prod.fst (Except.ok.inj h)
    simp only at h1
    exact ⟨srv, by rw [← h1], by rw [← h1]⟩

theorem addListToPool_ok_le :
    ∀ (us : List String) (pool : natsSrvPool) (nid : Nat)
      (p' : natsSrvPool) (nid' : Nat),
      addListToPool pool nid us = Except.ok (p', nid') →
      pool.srvrs.length ≤ p'.srvrs.length
  | [], pool, nid, p', nid', h => by
    have h1 := congrArg Prod.fst (Except.ok.inj h)
    simp only at h1
    rw [h1]
  | u :: us, pool, nid, p', nid', h => by
    unfold addListToPool at h
    split at h
    · exact absurd h (by simp)
    · rename_i p2 nid2 heq
      obtain ⟨srv, hs, -⟩ := _addURLToPool_ok pool nid u p2 nid2 heq
      have hrec := addListToPool_ok_le us p2 nid2 p' nid' h
      have hstep : pool.srvrs.length ≤ p2.srvrs.length := by
        rw [hs]; simp
      omega

/-- C6: constructing a pool from the empty configuration (no primary
address, no additional addresses) succeeds and yields exactly one entry,
the built-in default address, regardless of the no-randomize flag, the
random values and the retry budget; and, in general, every successfully
constructed pool has a non-empty server sequence. -/
theorem C6_create_nonempty :
    (∀ (nr : Bool) (m : Int) (rands : Nat → Nat) (nid : Nat),
      natsSrvPool_Create ⟨none, [], nr, m⟩ rands nid =
        Except.ok (⟨[⟨⟨nid, "localhost", 4222⟩, 0⟩], ["localhost:4222"]⟩, nid + 1)) ∧
    (∀ (opts : natsOptions) (rands : Nat → Nat) (nid : Nat)
       (p : natsSrvPool) (n : Nat),
      natsSrvPool_Create opts rands nid = Except.ok (p, n) → p.srvrs ≠ []) := by
  constructor
  · intro nr m rands nid
    cases nr <;> rfl
  · intro opts rands nid p n h
    unfold natsSrvPool_Create at h
    have hrest : ∀ (p1 : natsSrvPool) (n1 : Nat),
        (match addListToPool p1 n1 opts.servers with
         | Except.error e => Except.error e
         | Except.ok (p2, n2) =>
           let p3 := if opts.noRandomize then p2 else _shufflePool rands p2
           if p3.srvrs.length = 0 then
             _addURLToPool p3 n2 NATS_DEFAULT_URL
           else
             Except.ok (p3, n2)) = Except.ok (p, n) → p.srvrs ≠ [] := by
      intro p1 n1 hm
      split at hm
      · exact absurd hm (by simp)
      · rename_i p2 n2 heq
        simp only at hm
        rw [show (if opts.noRandomize = true then p2 else _shufflePool rands p2)
            = (if opts.noRandomize = true then p2 else _shufflePool rands p2)
            from rfl] at hm
        generalize hq : (if opts.noRandomize = true then p2
            else _shufflePool rands p2) = p3 at hm
        split at hm
        · rename_i hz
          obtain ⟨srv, hs, -⟩ := _addURLToPool_ok p3 n2 NATS_DEFAULT_URL p n hm
          rw [hs]
          simp
        · rename_i hz
          have h1 := congrArg Prod.fst (Except.ok.inj hm)
          simp only at h1
          rw [← h1]
          intro hcon
          exact hz (by rw [hcon]; rfl)
    cases hu : opts.url with
    | none =>
      rw [hu] at h
      exact hrest _ _ h
    | some u =>
      rw [hu] at h
      simp only at h
      cases ha : _addURLToPool ⟨[], []⟩ nid u with
      | error e =>
        rw [ha] at h
        exact absurd h (by simp)
      | ok v =>
        obtain ⟨p1v, n1v⟩ := v
        rw [ha] at h
        exact hrest p1v n1v h

/-! ### The dedup-set invariant -/

/-- The spec's dedup invariant: the key set of `pool->urls` is exactly
the set of bare `host:port` keys of the entries currently in the server
sequence. -/
def dedupExact (p : natsSrvPool) : Prop :=
  ∀ k, k ∈ p.urls ↔ ∃ s ∈ p.srvrs, bareURL s.url = k

/-- The weaker direction that survives eviction: every current entry's
key is in the dedup set. -/
def dedupSuperset (p : natsSrvPool) : Prop :=
  ∀ s ∈ p.srvrs, bareURL s.url ∈ p.urls

theorem dedupSuperset_of_dedupExact {p : natsSrvPool} (h : dedupExact p) :
    dedupSuperset p :=
  fun s hs => (h (bareURL s.url)).mpr ⟨s, hs, rfl⟩

theorem mem_natsStrHash_Set (m : List String) (key k : String) :
    k ∈ natsStrHash_Set m key ↔ k ∈ m ∨ k = key := by
  unfold natsStrHash_Set
  split
  · rename_i hk
    constructor
    · exact Or.inl
    · rintro (h | rfl)
      · exact h
      · exact hk
  · simp [List.mem_append]

theorem dedupExact_nil : dedupExact ⟨[], []⟩ := by
  intro k
  simp [dedupExact]

theorem dedupExact_addURL (pool : natsSrvPool) (nid : Nat) (sURL : String)
    (p' : natsSrvPool) (nid' : Nat) (hd : dedupExact pool)
    (h : _addURLToPool pool nid sURL = Except.ok (p', nid')) : dedupExact p' := by
  obtain ⟨srv, hs, hu⟩ := _addURLToPool_ok pool nid sURL p' nid' h
  intro k
  rw [hu, hs, mem_natsStrHash_Set]
  constructor
  · rintro (hk | rfl)
    · obtain ⟨s, hsmem, hbk⟩ := (hd k).mp hk
      exact ⟨s, List.mem_append_left _ hsmem, hbk⟩
    · exact ⟨srv, List.mem_append_right _ (by simp), rfl⟩
  · rintro ⟨s, hsmem, hbk⟩
    rcases List.mem_append.mp hsmem with hm | hm
    · exact Or.inl ((hd k).mpr ⟨s, hm, hbk⟩)
    · rw [List.mem_singleton] at hm
      subst hm
      exact Or.inr hbk.symm

theorem dedupExact_of_perm (p q : natsSrvPool)
    (hperm : List.Perm q.srvrs p.srvrs) (hurl : q.urls = p.urls)
    (hd : dedupExact p) : dedupExact q := by
  intro k
  rw [hurl, hd k]
  constructor <;> rintro ⟨s, hm, hb⟩
  · exact ⟨s, hperm.mem_iff.mpr hm, hb⟩
  · exact ⟨s, hperm.mem_iff.mp hm, hb⟩

theorem dedupExact_shuffle (rands : Nat → Nat) (pool : natsSrvPool)
    (hd : dedupExact pool) : dedupExact (_shufflePool rands pool) :=
  dedupExact_of_perm pool _ (shufflePool_perm rands pool)
    (shufflePool_urls rands pool) hd

theorem dedupExact_addList :
    ∀ (us : List String) (pool : natsSrvPool) (nid : Nat)
      (p' : natsSrvPool) (nid' : Nat), dedupExact pool →
      addListToPool pool nid us = Except.ok (p', nid') → dedupExact p'
  | [], pool, nid, p', nid', hd, h => by
    have h1 := congrArg Prod.fst (Except.ok.inj h)
    simp only at h1
    rw [← h1]
    exact hd
  | u :: us, pool, nid, p', nid', hd, h => by
    unfold addListToPool at h
    split at h
    · exact absurd h (by simp)
    · rename_i p2 nid2 heq
      exact dedupExact_addList us p2 nid2 p' nid'
        (dedupExact_addURL pool nid u p2 nid2 hd heq) h

theorem dedupExact_addLoop :
    ∀ (us : List String) (pool : natsSrvPool) (nid : Nat), dedupExact pool →
      dedupExact (addNewURLsLoop pool nid us).2.1
  | [], pool, _, hd => hd
  | u :: us, pool, nid, hd => by
    unfold addNewURLsLoop
    split
    · exact dedupExact_addLoop us pool nid hd
    · split
      · exact hd
      · rename_i p2 n2 heq
        exact dedupExact_addLoop us p2 n2
          (dedupExact_addURL pool nid (mergeURL u) p2 n2 hd heq)

theorem mem_of_mem_eraseIdx {α : Type} {x : α} {l : List α} {i : Nat}
    (h : x ∈ l.eraseIdx i) : x ∈ l := by
  rw [List.eraseIdx_eq_take_drop_succ] at h
  rcases List.mem_append.mp h with h | h
  · exact List.mem_of_mem_take h
  · exact List.mem_of_mem_drop h

/-- C2 (amended): the "dedup set is exactly the addresses of the current
sequence" invariant is established by construction and preserved by
admission, runtime merge, shuffle, and by a rotation that re-appends the
current server; a rotation that permanently evicts preserves only the
containment "every current entry's key is in the dedup set" — the
evicted entry's key is left behind in the set (see the counterexample). -/
theorem C2_dedup_exactness_amended :
    (∀ (opts : natsOptions) (rands : Nat → Nat) (nid : Nat)
       (p : natsSrvPool) (n : Nat),
      natsSrvPool_Create opts rands nid = Except.ok (p, n) → dedupExact p) ∧
    (∀ (pool : natsSrvPool) (nid : Nat) (sURL : String)
       (p' : natsSrvPool) (nid' : Nat), dedupExact pool →
      _addURLToPool pool nid sURL = Except.ok (p', nid') → dedupExact p') ∧
    (∀ (pool : natsSrvPool) (nid : Nat) (us : List String) (ds : Bool)
       (rands : Nat → Nat), dedupExact pool →
      dedupExact (natsSrvPool_addNewURLs pool nid us ds rands).2.1) ∧
    (∀ (rands : Nat → Nat) (pool : natsSrvPool), dedupExact pool →
      dedupExact (_shufflePool rands pool)) ∧
    (∀ (pool : natsSrvPool) (opts : natsOptions) (ncUrl : natsUrl)
       (s : natsSrv) (i : Nat), dedupExact pool →
      findSrvAux ncUrl pool.srvrs 0 = some (s, i) →
      (opts.maxReconnect < 0 ∨ s.reconnects < opts.maxReconnect) →
      dedupExact (natsSrvPool_GetNextServer pool opts ncUrl).2) ∧
    (∀ (pool : natsSrvPool) (opts : natsOptions) (ncUrl : natsUrl),
      dedupExact pool →
      dedupSuperset (natsSrvPool_GetNextServer pool opts ncUrl).2) := by
  refine ⟨?_, dedupExact_addURL, ?_, dedupExact_shuffle, ?_, ?_⟩
  · intro opts rands nid p n h
    unfold natsSrvPool_Create at h
    have hrest : ∀ (p1 : natsSrvPool) (n1 : Nat), dedupExact p1 →
        (match addListToPool p1 n1 opts.servers with
         | Except.error e => Except.error e
         | Except.ok (p2, n2) =>
           let p3 := if opts.noRandomize then p2 else _shufflePool rands p2
           if p3.srvrs.length = 0 then
             _addURLToPool p3 n2 NATS_DEFAULT_URL
           else
             Except.ok (p3, n2)) = Except.ok (p, n) → dedupExact p := by
      intro p1 n1 hd1 hm
      split at hm
      · exact absurd hm (by simp)
      · rename_i p2 n2 heq
        have hd2 : dedupExact p2 :=
          dedupExact_addList opts.servers p1 n1 p2 n2 hd1 heq
        simp only at hm
        generalize hq : (if opts.noRandomize = true then p2
            else _shufflePool rands p2) = p3 at hm
        have hd3 : dedupExact p3 := by
          rw [← hq]
          split
          · exact hd2
          · exact dedupExact_shuffle rands p2 hd2
        split at hm
        · exact dedupExact_addURL p3 n2 NATS_DEFAULT_URL p n hd3 hm
        · have h1 := congrArg Prod.fst (Except.ok.inj hm)
          simp only at h1
          rw [← h1]
          exact hd3
    cases hu : opts.url with
    | none =>
      rw [hu] at h
      exact hrest _ _ dedupExact_nil h
    | some u =>
      rw [hu] at h
      simp only at h
      cases ha : _addURLToPool ⟨[], []⟩ nid u with
      | error e =>
        rw [ha] at h
        exact absurd h (by simp)
      | ok v =>
        obtain ⟨p1v, n1v⟩ := v
        rw [ha] at h
        exact hrest p1v n1v
          (dedupExact_addURL ⟨[], []⟩ nid u p1v n1v dedupExact_nil ha) h
  · intro pool nid us ds rands hd
    unfold natsSrvPool_addNewURLs
    simp only
    split
    · exact dedupExact_shuffle rands _ (dedupExact_addLoop us pool nid hd)
    · exact dedupExact_addLoop us pool nid hd
  · intro pool opts ncUrl s i hd hfind hk
    rw [getNextServer_eq pool opts ncUrl s i hfind]
    obtain ⟨-, -, hget, -⟩ := findSrvAux_some ncUrl pool.srvrs 0 s i hfind
    simp only [Nat.sub_zero] at hget
    refine dedupExact_of_perm pool _ ?_ rfl hd
    show List.Perm (pool.srvrs.eraseIdx i ++
      (if opts.maxReconnect < 0 ∨ s.reconnects < opts.maxReconnect
       then [s] else [])) pool.srvrs
    rw [if_pos hk]
    exact eraseIdx_append_perm pool.srvrs i s hget
  · intro pool opts ncUrl hd
    cases hfind : findSrvAux ncUrl pool.srvrs 0 with
    | none =>
      unfold natsSrvPool_GetNextServer
      rw [hfind]
      exact dedupSuperset_of_dedupExact hd
    | some v =>
      obtain ⟨s, i⟩ := v
      rw [getNextServer_eq pool opts ncUrl s i hfind]
      obtain ⟨-, -, hget, -⟩ := findSrvAux_some ncUrl pool.srvrs 0 s i hfind
      simp only [Nat.sub_zero] at hget
      intro x hx
      rcases List.mem_append.mp hx with hm | hm
      · exact (hd (bareURL x.url)).mpr ⟨x, mem_of_mem_eraseIdx hm, rfl⟩
      · have hxs : x = s := by
          by_cases hc : opts.maxReconnect < 0 ∨ s.reconnects < opts.maxReconnect
          · rw [if_pos hc] at hm
            exact List.mem_singleton.mp hm
          · rw [if_neg hc] at hm
            exact absurd hm (by simp)
        subst hxs
        exact (hd (bareURL x.url)).mpr ⟨x, List.get?_mem hget, rfl⟩

/-- C2, counterexample to the claim as stated: starting from a
just-constructed single-server pool (where the invariant does hold), a
rotation with `maxReconnect = 0` permanently evicts the only server, yet
its key `"a:4222"` stays in the dedup set, so after this pool operation
the set is not the set of addresses of the (now empty) sequence. -/
theorem C2_counterexample :
    natsSrvPool_Create ⟨some "nats://a:4222", [], true, 0⟩ (fun _ => 0) 0 =
      Except.ok (⟨[⟨⟨0, "a", 4222⟩, 0⟩], ["a:4222"]⟩, 1) ∧
    natsSrvPool_GetNextServer ⟨[⟨⟨0, "a", 4222⟩, 0⟩], ["a:4222"]⟩
        ⟨some "nats://a:4222", [], true, 0⟩ ⟨0, "a", 4222⟩ =
      (none, ⟨[], ["a:4222"]⟩) ∧
    ¬ dedupExact ⟨[], ["a:4222"]⟩ := by
  refine ⟨rfl, rfl, ?_⟩
  intro hd
  obtain ⟨s, hs, -⟩ := (hd "a:4222").mp (by simp)
  simp at hs

theorem C2_witness : dedupExact ⟨[⟨⟨0, "a", 4222⟩, 0⟩], ["a:4222"]⟩ :=
  C2_dedup_exactness_amended.1 ⟨some "nats://a:4222", [], true, 0⟩
    (fun _ => 0) 0 ⟨[⟨⟨0, "a", 4222⟩, 0⟩], ["a:4222"]⟩ 1 rfl

/-! ### Helper lemmas about merge and error statuses -/

theorem natsUrl_Create_error (uid : Nat) (urlStr : String) (e : natsStatus)
    (h : natsUrl_Create uid urlStr = Except.error e) : e = NATS_INVALID_URL := by
  unfold natsUrl_Create at h
  simp only at h
  split at h
  · split at h
    · exact (Except.error.inj h).symm
    · exact absurd h (by simp)
  · split at h
    · exact (Except.error.inj h).symm
    · split at h
      · exact absurd h (by simp)
      · exact (Except.error.inj h).symm

theorem _createSrv_error (nid : Nat) (url : String) (e : natsStatus)
    (h : _createSrv nid url = Except.error e) : e = NATS_INVALID_URL := by
  unfold _createSrv at h
  split at h
  · exact absurd h (by simp)
  · rename_i e2 heq
    rw [← Except.error.inj h]
    exact natsUrl_Create_error nid url e2 heq

theorem _addURLToPool_error (pool : natsSrvPool) (nid : Nat) (sURL : String)
    (e : natsStatus) (h : _addURLToPool pool nid sURL = Except.error e) :
    e = NATS_INVALID_URL := by
  unfold _addURLToPool at h
  split at h
  · rename_i e2 heq
    rw [← Except.error.inj h]
    exact _createSrv_error nid sURL e2 heq
  · exact absurd h (by simp)

theorem addNewURLsLoop_append :
    ∀ (pre : List String) (pool : natsSrvPool) (nid : Nat) (more : List String)
      (p1 : natsSrvPool) (n1 : Nat) (upd1 : Bool),
      addNewURLsLoop pool nid pre = (NATS_OK, p1, n1, upd1) →
      addNewURLsLoop pool nid (pre ++ more) =
        ((addNewURLsLoop p1 n1 more).1, (addNewURLsLoop p1 n1 more).2.1,
         (addNewURLsLoop p1 n1 more).2.2.1,
         upd1 || (addNewURLsLoop p1 n1 more).2.2.2)
  | [], pool, nid, more, p1, n1, upd1, h => by
    obtain ⟨-, h2⟩ : NATS_OK = NATS_OK ∧ (pool, nid, false) = (p1, n1, upd1) :=
      ⟨congrArg Prod.fst h, congrArg Prod.snd h⟩
    have hp : pool = p1 := congrArg Prod.fst h2
    have hn : nid = n1 := congrArg (fun x => x.2.1) h2
    have hu : false = upd1 := congrArg (fun x => x.2.2) h2
    subst hp; subst hn
    rw [← hu]
    simp only [List.nil_append, Bool.false_or]
  | u :: pre, pool, nid, more, p1, n1, upd1, h => by
    have hh : ∀ (rest : List String), addNewURLsLoop pool nid (u :: rest) =
        (if natsStrHash_Get pool.urls u then
          addNewURLsLoop pool nid rest
        else
          match _addURLToPool pool nid (mergeURL u) with
          | Except.error e => (e, pool, nid, false)
          | Except.ok (p, nid2) =>
            let r := addNewURLsLoop p nid2 rest
            (r.1, r.2.1, r.2.2.1, true)) := fun _ => rfl
    rw [hh] at h
    rw [List.cons_append, hh]
    by_cases hget : natsStrHash_Get pool.urls u
    · rw [if_pos hget] at h ⊢
      exact addNewURLsLoop_append pre pool nid more p1 n1 upd1 h
    · rw [if_neg hget] at h ⊢
      cases heq : _addURLToPool pool nid (mergeURL u) with
      | error e =>
        rw [heq] at h
        simp only at h
        have h1 : e = NATS_OK := congrArg Prod.fst h
        exact absurd (h1 ▸ _addURLToPool_error pool nid (mergeURL u) e heq)
          (by simp)
      | ok v =>
        obtain ⟨p2, n2⟩ := v
        rw [heq] at h
        simp only at h ⊢
        have hupd : upd1 = true := by
          have h4 := congrArg (fun x => x.2.2.2) h
          simp only at h4
          exact h4.symm
        have h1 := congrArg Prod.fst h
        have h2 := congrArg (fun x => x.2.1) h
        have h3 := congrArg (fun x => x.2.2.1) h
        simp only at h1 h2 h3
        have h' : addNewURLsLoop p2 n2 pre =
            (NATS_OK, p1, n1, (addNewURLsLoop p2 n2 pre).2.2.2) := by
          rw [← h1, ← h2, ← h3]
        have hIH := addNewURLsLoop_append pre p2 n2 more p1 n1
          ((addNewURLsLoop p2 n2 pre).2.2.2) h'
        rw [hIH, hupd]
        simp only [Bool.true_or]

/-- C3, counterexample to the claim as stated: during construction there
is no presence check, so admitting the same normalized `host:port` twice
(here with the two scheme prefixes `nats://` and `tls://`) produces a
pool of size 2 whose two entries carry the same bare `host:port` key —
the second admission did change the size after the first one. -/
theorem C3_counterexample :
    natsSrvPool_Create ⟨none, ["nats://a:4222", "tls://a:4222"], true, 0⟩
        (fun _ => 0) 0 =
      Except.ok (⟨[⟨⟨0, "a", 4222⟩, 0⟩, ⟨⟨1, "a", 4222⟩, 0⟩], ["a:4222"]⟩, 2) ∧
    bareURL (⟨0, "a", 4222⟩ : natsUrl) = bareURL (⟨1, "a", 4222⟩ : natsUrl) ∧
    (⟨[⟨⟨0, "a", 4222⟩, 0⟩, ⟨⟨1, "a", 4222⟩, 0⟩],
       ["a:4222"]⟩ : natsSrvPool).srvrs.length = 2 :=
  ⟨rfl, rfl, rfl⟩

/-- C3 (amended): the dedup presence check exists only at the
runtime-merge level: `natsSrvPool_addNewURLs` skips an address whose
string is already a key of the dedup set — re-merging a known address is
a complete no-op on the pool, so a merge never grows the pool for an
address it already knows; the admission routine `_addURLToPool` itself,
which construction uses directly, performs no presence check and always
appends one entry (the dedup set, being a set, keeps a single copy of
the key), so construction can produce two entries with the same
normalized `host:port` (see the counterexample). -/
theorem C3_dedup_skip_only_in_merge :
    (∀ (pool : natsSrvPool) (nid : Nat) (u : String) (rest : List String),
      u ∈ pool.urls →
      addNewURLsLoop pool nid (u :: rest) = addNewURLsLoop pool nid rest) ∧
    (∀ (pool : natsSrvPool) (nid : Nat) (u : String) (ds : Bool)
       (rands : Nat → Nat), u ∈ pool.urls →
      natsSrvPool_addNewURLs pool nid [u] ds rands = (NATS_OK, pool, nid)) ∧
    (∀ (pool : natsSrvPool) (nid : Nat) (sURL : String)
       (p' : natsSrvPool) (nid' : Nat),
      _addURLToPool pool nid sURL = Except.ok (p', nid') →
      p'.srvrs.length = pool.srvrs.length + 1) := by
  refine ⟨?_, ?_, ?_⟩
  · intro pool nid u rest hmem
    have hh : addNewURLsLoop pool nid (u :: rest) =
        (if natsStrHash_Get pool.urls u then
          addNewURLsLoop pool nid rest
        else
          match _addURLToPool pool nid (mergeURL u) with
          | Except.error e => (e, pool, nid, false)
          | Except.ok (p, nid2) =>
            let r := addNewURLsLoop p nid2 rest
            (r.1, r.2.1, r.2.2.1, true)) := rfl
    rw [hh, if_pos (by simpa [natsStrHash_Get] using hmem)]
  · intro pool nid u ds rands hmem
    unfold natsSrvPool_addNewURLs
    have hloop : addNewURLsLoop pool nid [u] = (NATS_OK, pool, nid, false) := by
      have hh : addNewURLsLoop pool nid [u] =
          (if natsStrHash_Get pool.urls u then
            addNewURLsLoop pool nid []
          else
            match _addURLToPool pool nid (mergeURL u) with
            | Except.error e => (e, pool, nid, false)
            | Except.ok (p, nid2) =>
              let r := addNewURLsLoop p nid2 []
              (r.1, r.2.1, r.2.2.1, true)) := rfl
      rw [hh, if_pos (by simpa [natsStrHash_Get] using hmem)]
      rfl
    rw [hloop]
    rfl
  · intro pool nid sURL p' nid' h
    obtain ⟨srv, hs, -⟩ := _addURLToPool_ok pool nid sURL p' nid' h
    rw [hs]
    simp

theorem C3_witness :
    natsSrvPool_addNewURLs ⟨[⟨⟨0, "a", 4222⟩, 0⟩], ["a:4222"]⟩ 1 ["a:4222"]
        true (fun _ => 0)
      = (NATS_OK, ⟨[⟨⟨0, "a", 4222⟩, 0⟩], ["a:4222"]⟩, 1) ∧
    (⟨[⟨⟨0, "a", 4222⟩, 0⟩, ⟨⟨1, "a", 4222⟩, 0⟩],
       ["a:4222"]⟩ : natsSrvPool).srvrs.length
      = (⟨[⟨⟨0, "a", 4222⟩, 0⟩], ["a:4222"]⟩ : natsSrvPool).srvrs.length + 1 := by
  refine ⟨C3_dedup_skip_only_in_merge.2.1
    ⟨[⟨⟨0, "a", 4222⟩, 0⟩], ["a:4222"]⟩ 1 "a:4222" true (fun _ => 0)
    (by simp), ?_⟩
  exact C3_dedup_skip_only_in_merge.2.2 ⟨[⟨⟨0, "a", 4222⟩, 0⟩], ["a:4222"]⟩ 1
    "tls://a:4222" ⟨[⟨⟨0, "a", 4222⟩, 0⟩, ⟨⟨1, "a", 4222⟩, 0⟩], ["a:4222"]⟩ 2 rfl

/-- The final pool of the merge loop never shrinks: each iteration either
skips or appends one entry. -/
theorem addNewURLsLoop_length_le :
    ∀ (us : List String) (pool : natsSrvPool) (nid : Nat),
      pool.srvrs.length ≤ (addNewURLsLoop pool nid us).2.1.srvrs.length
  | [], _, _ => Nat.le_refl _
  | u :: us, pool, nid => by
    unfold addNewURLsLoop
    split
    · exact addNewURLsLoop_length_le us pool nid
    · split
      · exact Nat.le_refl _
      · rename_i p2 n2 heq
        obtain ⟨srv, hs, -⟩ := _addURLToPool_ok pool nid (mergeURL u) p2 n2 heq
        have h1 : pool.srvrs.length ≤ p2.srvrs.length := by
          rw [hs]; simp
        have h2 := addNewURLsLoop_length_le us p2 n2
        simp only
        omega

/-- The `updated` flag of the merge loop is set exactly when at least one
address was newly admitted, i.e. when the pool grew. -/
theorem addNewURLsLoop_updated_iff :
    ∀ (us : List String) (pool : natsSrvPool) (nid : Nat),
      (addNewURLsLoop pool nid us).2.2.2 = true ↔
        pool.srvrs.length < (addNewURLsLoop pool nid us).2.1.srvrs.length
  | [], pool, nid => by
    simp [addNewURLsLoop]
  | u :: us, pool, nid => by
    unfold addNewURLsLoop
    split
    · exact addNewURLsLoop_updated_iff us pool nid
    · split
      · simp
      · rename_i p2 n2 heq
        obtain ⟨srv, hs, -⟩ := _addURLToPool_ok pool nid (mergeURL u) p2 n2 heq
        have h1 : pool.srvrs.length < p2.srvrs.length := by
          rw [hs]; simp
        have h2 := addNewURLsLoop_length_le us p2 n2
        simp only
        constructor
        · intro _
          omega
        · intro _
          trivial

/-- C5: runtime merge (`natsSrvPool_addNewURLs`):
(1) if every incoming address is already keyed in the dedup set, the call
succeeds with `NATS_OK` and the pool, the allocation counter and the
order are completely unchanged — known addresses are silently skipped,
never an error — even when the shuffle flag is set (nothing was admitted,
so no reshuffle);
(2) if, after a prefix `pre` of addresses is processed successfully, the
admission of the next address `u` fails, the call returns that error, the
addresses admitted while processing `pre` remain in the pool (shuffled
exactly when at least one address was newly admitted and the shuffle flag
is set), and the addresses after `u` are never attempted: the result is
the same as if the list had ended at `u`;
(3) in general — covering in particular the merge calls that complete
successfully after newly admitting addresses — whatever the merge loop
produced (status, pool `p1`, counter, `updated` flag), the call returns
that status and counter, and the pool is `_shufflePool rands p1` when
`updated` and the shuffle flag are both set and exactly `p1` otherwise;
and `updated` holds if and only if the pool grew, i.e. at least one
address was newly admitted. -/
theorem C5_merge_skip_failfast_partial :
    (∀ (pool : natsSrvPool) (nid : Nat) (us : List String) (ds : Bool)
       (rands : Nat → Nat), (∀ u ∈ us, u ∈ pool.urls) →
      natsSrvPool_addNewURLs pool nid us ds rands = (NATS_OK, pool, nid)) ∧
    (∀ (pool : natsSrvPool) (nid : Nat) (pre : List String) (u : String)
       (rest : List String) (ds : Bool) (rands : Nat → Nat)
       (p1 : natsSrvPool) (n1 : Nat) (upd1 : Bool) (e : natsStatus),
      addNewURLsLoop pool nid pre = (NATS_OK, p1, n1, upd1) →
      natsStrHash_Get p1.urls u = false →
      _addURLToPool p1 n1 (mergeURL u) = Except.error e →
      natsSrvPool_addNewURLs pool nid (pre ++ u :: rest) ds rands =
        (e, if upd1 && ds then _shufflePool rands p1 else p1, n1) ∧
      natsSrvPool_addNewURLs pool nid (pre ++ u :: rest) ds rands =
        natsSrvPool_addNewURLs pool nid (pre ++ [u]) ds rands) ∧
    (∀ (pool : natsSrvPool) (nid : Nat) (urls : List String) (ds : Bool)
       (rands : Nat → Nat) (st : natsStatus) (p1 : natsSrvPool) (n1 : Nat)
       (upd : Bool),
      addNewURLsLoop pool nid urls = (st, p1, n1, upd) →
      natsSrvPool_addNewURLs pool nid urls ds rands =
        (st, if upd && ds then _shufflePool rands p1 else p1, n1) ∧
      (upd = true ↔ pool.srvrs.length < p1.srvrs.length)) := by
  refine ⟨?_, ?_, ?_⟩
  · intro pool nid us ds rands hall
    have hloop : ∀ (us : List String), (∀ u ∈ us, u ∈ pool.urls) →
        addNewURLsLoop pool nid us = (NATS_OK, pool, nid, false) := by
      intro us
      induction us with
      | nil => intro _; rfl
      | cons u rest ih =>
        intro hall
        unfold addNewURLsLoop
        rw [if_pos (by simpa [natsStrHash_Get] using hall u (by simp))]
        exact ih (fun x hx => hall x (List.mem_cons_of_mem _ hx))
    unfold natsSrvPool_addNewURLs
    rw [hloop us hall]
    rfl
  · intro pool nid pre u rest ds rands p1 n1 upd1 e hpre hget hfail
    have hstep : ∀ (tail : List String),
        addNewURLsLoop p1 n1 (u :: tail) = (e, p1, n1, false) := by
      intro tail
      unfold addNewURLsLoop
      rw [if_neg (by simp [hget]), hfail]
    have hfull : ∀ (tail : List String),
        addNewURLsLoop pool nid (pre ++ u :: tail) = (e, p1, n1, upd1 || false) := by
      intro tail
      rw [addNewURLsLoop_append pre pool nid (u :: tail) p1 n1 upd1 hpre,
        hstep tail]
    constructor
    · unfold natsSrvPool_addNewURLs
      rw [hfull rest]
      simp only [Bool.or_false]
    · unfold natsSrvPool_addNewURLs
      rw [hfull rest, hfull []]
  · intro pool nid urls ds rands st p1 n1 upd h
    constructor
    · unfold natsSrvPool_addNewURLs
      rw [h]
    · have hiff := addNewURLsLoop_updated_iff urls pool nid
      rw [h] at hiff
      simpa using hiff

theorem C5_witness :
    natsSrvPool_addNewURLs ⟨[], []⟩ 0 ["b:4222", "", "c:4222"] true (fun _ => 0)
      = (NATS_INVALID_URL, ⟨[⟨⟨0, "b", 4222⟩, 0⟩], ["b:4222"]⟩, 1) ∧
    natsSrvPool_addNewURLs ⟨[], []⟩ 0 ["b:4222", "", "c:4222"] true (fun _ => 0)
      = natsSrvPool_addNewURLs ⟨[], []⟩ 0 ["b:4222", ""] true (fun _ => 0) ∧
    natsSrvPool_addNewURLs ⟨[⟨⟨0, "b", 4222⟩, 0⟩], ["b:4222"]⟩ 1 ["b:4222"]
        true (fun _ => 0)
      = (NATS_OK, ⟨[⟨⟨0, "b", 4222⟩, 0⟩], ["b:4222"]⟩, 1) ∧
    natsSrvPool_addNewURLs ⟨[], []⟩ 0 ["b:4222", "c:4222"] true (fun _ => 0)
      = (NATS_OK, ⟨[⟨⟨1, "c", 4222⟩, 0⟩, ⟨⟨0, "b", 4222⟩, 0⟩],
          ["b:4222", "c:4222"]⟩, 2) ∧
    natsSrvPool_addNewURLs ⟨[], []⟩ 0 ["b:4222", "c:4222"] false (fun _ => 0)
      = (NATS_OK, ⟨[⟨⟨0, "b", 4222⟩, 0⟩, ⟨⟨1, "c", 4222⟩, 0⟩],
          ["b:4222", "c:4222"]⟩, 2) := by
  have hc := C5_merge_skip_failfast_partial.2.1 ⟨[], []⟩ 0 ["b:4222"] ""
    ["c:4222"] true (fun _ => 0) ⟨[⟨⟨0, "b", 4222⟩, 0⟩], ["b:4222"]⟩ 1 true
    NATS_INVALID_URL rfl rfl rfl
  have hg := C5_merge_skip_failfast_partial.2.2 ⟨[], []⟩ 0 ["b:4222", "c:4222"]
    true (fun _ => 0) NATS_OK
    ⟨[⟨⟨0, "b", 4222⟩, 0⟩, ⟨⟨1, "c", 4222⟩, 0⟩], ["b:4222", "c:4222"]⟩ 2 true rfl
  have hg' := C5_merge_skip_failfast_partial.2.2 ⟨[], []⟩ 0 ["b:4222", "c:4222"]
    false (fun _ => 0) NATS_OK
    ⟨[⟨⟨0, "b", 4222⟩, 0⟩, ⟨⟨1, "c", 4222⟩, 0⟩], ["b:4222", "c:4222"]⟩ 2 true rfl
  refine ⟨hc.1.trans rfl, hc.2, ?_, hg.1.trans rfl, hg'.1.trans rfl⟩
  exact C5_merge_skip_failfast_partial.1 ⟨[⟨⟨0, "b", 4222⟩, 0⟩], ["b:4222"]⟩ 1
    ["b:4222"] true (fun _ => 0) (by simp)

/-! ### Truncation facts -/

theorem strMk_append (a b : List Char) :
    String.mk a ++ String.mk b = String.mk (a ++ b) := rfl

theorem mergeURL_eq (u : String) :
    mergeURL u = "nats://" ++ String.mk (u.data.take 248) := by
  obtain ⟨l⟩ := u
  show String.mk ((("nats://" : String) ++ String.mk l).data.take 255) = _
  rw [String.data_append]
  rw [List.take_append_eq_append_take]
  rw [List.take_of_length_le (show ("nats://" : String).data.length ≤ 255 by decide)]
  rfl

/-- C10: the URL admitted for a discovered address `u` by
`natsSrvPool_addNewURLs` is `"nats://" ++ u` truncated by `snprintf` to
fit the 256-byte buffer, i.e. `"nats://"` followed by the first 248
characters of `u` (the whole of `u` when it has at most 248 characters);
likewise the dedup key written by `_addURLToPool` is the `host:port`
string truncated to at most 255 characters (unchanged when it fits); and
an address that is not yet keyed is admitted - as this truncated string -
rather than rejected for its length. -/
theorem C10_merge_url_truncated :
    (∀ u : String, mergeURL u = "nats://" ++ String.mk (u.data.take 248)) ∧
    (∀ u : String, u.data.length ≤ 248 → mergeURL u = "nats://" ++ u) ∧
    (∀ url : natsUrl,
      (url.host ++ ":" ++ intToDecimalString url.port).data.length ≤ 255 →
      bareURL url = url.host ++ ":" ++ intToDecimalString url.port) ∧
    (∀ url : natsUrl, (bareURL url).data.length ≤ 255) ∧
    (∀ (pool : natsSrvPool) (nid : Nat) (u : String) (rest : List String)
       (p' : natsSrvPool) (nid' : Nat),
      natsStrHash_Get pool.urls u = false →
      _addURLToPool pool nid (mergeURL u) = Except.ok (p', nid') →
      addNewURLsLoop pool nid (u :: rest) =
        ((addNewURLsLoop p' nid' rest).1, (addNewURLsLoop p' nid' rest).2.1,
         (addNewURLsLoop p' nid' rest).2.2.1, true)) := by
  refine ⟨mergeURL_eq, ?_, ?_, ?_, ?_⟩
  · intro u hlen
    rw [mergeURL_eq u, List.take_of_length_le hlen]
  · intro url hlen
    show String.mk ((url.host ++ ":" ++ intToDecimalString url.port).data.take 255)
      = url.host ++ ":" ++ intToDecimalString url.port
    rw [List.take_of_length_le hlen]
  · intro url
    show (String.mk ((url.host ++ ":" ++
      intToDecimalString url.port).data.take 255)).data.length ≤ 255
    have := List.length_take 255
      (url.host ++ ":" ++ intToDecimalString url.port).data
    simp only [this]
    omega
  · intro pool nid u rest p' nid' hget hadd
    have hh : addNewURLsLoop pool nid (u :: rest) =
        (if natsStrHash_Get pool.urls u then
          addNewURLsLoop pool nid rest
        else
          match _addURLToPool pool nid (mergeURL u) with
          | Except.error e => (e, pool, nid, false)
          | Except.ok (p, nid2) =>
            let r := addNewURLsLoop p nid2 rest
            (r.1, r.2.1, r.2.2.1, true)) := rfl
    rw [hh, if_neg (by simp [hget]), hadd]

set_option maxRecDepth 8000 in
theorem C10_witness :
    mergeURL (String.mk (List.replicate 300 'a'))
      = "nats://" ++ String.mk (List.replicate 248 'a') ∧
    mergeURL "a:4222" = "nats://" ++ "a:4222" ∧
    (bareURL ⟨0, String.mk (List.replicate 300 'a'), 4222⟩).data.length ≤ 255 ∧
    addNewURLsLoop ⟨[], []⟩ 0 [String.mk (List.replicate 300 'a')] =
      (NATS_OK, ⟨[⟨⟨0, String.mk (List.replicate 248 'a'), 4222⟩, 0⟩],
        [String.mk (List.replicate 248 'a' ++ [':', '4', '2', '2', '2'])]⟩,
       1, true) := by
  refine ⟨?_, ?_, C10_merge_url_truncated.2.2.2.1 _, ?_⟩
  · rw [C10_merge_url_truncated.1 (String.mk (List.replicate 300 'a'))]
    rw [show (List.replicate 300 'a').take 248 = List.replicate 248 'a' by decide]
  · exact C10_merge_url_truncated.2.1 "a:4222" (by decide)
  · have h5 := C10_merge_url_truncated.2.2.2.2 ⟨[], []⟩ 0
      (String.mk (List.replicate 300 'a')) []
      ⟨[⟨⟨0, String.mk (List.replicate 248 'a'), 4222⟩, 0⟩],
        [String.mk (List.replicate 248 'a' ++ [':', '4', '2', '2', '2'])]⟩ 1
      rfl rfl
    exact h5.trans rfl

theorem C6_witness :
    natsSrvPool_Create ⟨none, [], true, 0⟩ (fun _ => 0) 0 =
      Except.ok (⟨[⟨⟨0, "localhost", 4222⟩, 0⟩], ["localhost:4222"]⟩, 1) ∧
    (⟨[⟨⟨0, "localhost", 4222⟩, 0⟩], ["localhost:4222"]⟩ : natsSrvPool).srvrs
      ≠ [] :=
  ⟨C6_create_nonempty.1 true 0 (fun _ => 0) 0,
   C6_create_nonempty.2 ⟨none, [], true, 0⟩ (fun _ => 0) 0
     ⟨[⟨⟨0, "localhost", 4222⟩, 0⟩], ["localhost:4222"]⟩ 1
     (C6_create_nonempty.1 true 0 (fun _ => 0) 0)⟩
